import Mathlib

/-!
Formal model of the TikTok-Video-Transcriber bulk pipeline
(`video_downloader.py`, `transcriber.py`, `app.py`).

Python strings handled by the downloader (URLs, error messages, free text)
are modelled as lists of Unicode code points (`List Nat`); strings produced
by the formatting helpers are modelled with Lean `String`.
-/

namespace TikTok

/-- Code points of a Lean string literal, used to write the Python string
constants of the source as `List Nat` values. -/
def codes (s : String) : List Nat := s.data.map Char.toNat

/-- One step of Python `str.lower()` on a code point (ASCII range, which is
all that the domain tokens and error keywords of the source use). -/
def lowerChar (c : Nat) : Nat := if 65 ≤ c ∧ c ≤ 90 then c + 32 else c

/-- Python `s.lower()` on a string modelled as a list of code points. -/
def lowerStr (s : List Nat) : List Nat := s.map lowerChar

/-- Python substring containment `pat in s` on strings modelled as lists of
code points. -/
def isSubstring (pat s : List Nat) : Bool := s.tails.any (fun t => pat.isPrefixOf t)

/-- The domain list of `validate_tiktok_url` (video_downloader.py line 225). -/
def tiktok_domains : List (List Nat) :=
  [codes "tiktok.com", codes "vm.tiktok.com", codes "vt.tiktok.com"]

/-- Embedding of `validate_tiktok_url` (video_downloader.py lines 215-226):
`any(domain in url.lower() for domain in tiktok_domains)`. -/
def validate_tiktok_url (url : List Nat) : Bool :=
  tiktok_domains.any (fun domain => isSubstring domain (lowerStr url))

/- Helper lemmas about the string model. -/

theorem isPrefixOf_eq_iff {p s : List Nat} :
    p.isPrefixOf s = true ↔ p <+: s :=
  List.isPrefixOf_iff_prefix

theorem isSubstring_iff_isInfix {pat s : List Nat} :
    isSubstring pat s = true ↔ pat <:+: s := by
  unfold isSubstring
  rw [List.any_eq_true]
  constructor
  · rintro ⟨t, ht, hpre⟩
    rw [List.mem_tails] at ht
    exact List.infix_iff_prefix_suffix.mpr ⟨t, isPrefixOf_eq_iff.mp hpre, ht⟩
  · intro h
    obtain ⟨t, hpre, hsuf⟩ := List.infix_iff_prefix_suffix.mp h
    exact ⟨t, (List.mem_tails _ _).mpr hsuf, isPrefixOf_eq_iff.mpr hpre⟩

theorem lowerChar_idem (c : Nat) : lowerChar (lowerChar c) = lowerChar c := by
  unfold lowerChar
  split_ifs <;> omega

theorem lowerStr_idem (s : List Nat) : lowerStr (lowerStr s) = lowerStr s := by
  unfold lowerStr
  rw [List.map_map]
  exact List.map_congr_left fun c _ => lowerChar_idem c

/-- C6: `validate_tiktok_url` is true iff the lowercased URL contains one of
the three configured domain tokens, and it is invariant under lowercasing
the input. -/
theorem validate_tiktok_url_spec (url : List Nat) :
    (validate_tiktok_url url = true ↔
      codes "tiktok.com" <:+: lowerStr url ∨
      codes "vm.tiktok.com" <:+: lowerStr url ∨
      codes "vt.tiktok.com" <:+: lowerStr url) ∧
    validate_tiktok_url url = validate_tiktok_url (lowerStr url) := by
  constructor
  · simp only [validate_tiktok_url, tiktok_domains, List.any_cons, List.any_nil,
      Bool.or_eq_true, Bool.or_false]
    rw [isSubstring_iff_isInfix, isSubstring_iff_isInfix, isSubstring_iff_isInfix]
  · simp only [validate_tiktok_url]
    rw [show lowerStr (lowerStr url) = lowerStr url from lowerStr_idem url]

/-
URL extraction (`extract_urls_from_text`, video_downloader.py lines 228-246).
The pattern `https?://(?:www\.)?(?:vm\.)?(?:vt\.)?tiktok\.com/[^\s]+` has no
ambiguity: each optional literal starts with a character distinct from every
alternative continuation, so the backtracking regex engine behaves like the
greedy committed matcher embedded here.
-/

/-- Code points Python's `\s` (and `str.isspace`) treats as whitespace. -/
def pySpaces : List Nat :=
  [9, 10, 11, 12, 13, 28, 29, 30, 31, 32, 133, 160, 5760,
   8192, 8193, 8194, 8195, 8196, 8197, 8198, 8199, 8200, 8201, 8202,
   8232, 8233, 8239, 8287, 12288]

def isPySpace (c : Nat) : Bool := pySpaces.contains c

/-- Consume a mandatory literal of the pattern: succeed with the remaining
input exactly when the literal is a prefix of the input. -/
def eatLit (pat s : List Nat) : Option (List Nat) :=
  if pat.isPrefixOf s then some (s.drop pat.length) else none

/-- Consume an optional literal of the pattern, returning the consumed text
and the remaining input. -/
def eatOpt (pat s : List Nat) : List Nat × List Nat :=
  if pat.isPrefixOf s then (pat, s.drop pat.length) else ([], s)

/-- Attempt to match the TikTok URL pattern at the start of `s`, returning
the matched text and the rest of the input. -/
def matchAt (s : List Nat) : Option (List Nat × List Nat) :=
  match eatLit (codes "http") s with
  | none => none
  | some s1 =>
    match eatLit (codes "://") (eatOpt (codes "s") s1).2 with
    | none => none
    | some s3 =>
      match eatLit (codes "tiktok.com/")
          (eatOpt (codes "vt.") (eatOpt (codes "vm.") (eatOpt (codes "www.") s3).2).2).2 with
      | none => none
      | some s7 =>
        if (s7.takeWhile (fun c => !isPySpace c)).isEmpty then none
        else
          some (codes "http" ++ (eatOpt (codes "s") s1).1 ++ codes "://" ++
                  (eatOpt (codes "www.") s3).1 ++
                  (eatOpt (codes "vm.") (eatOpt (codes "www.") s3).2).1 ++
                  (eatOpt (codes "vt.") (eatOpt (codes "vm.") (eatOpt (codes "www.") s3).2).2).1 ++
                  codes "tiktok.com/" ++ s7.takeWhile (fun c => !isPySpace c),
                s7.drop (s7.takeWhile (fun c => !isPySpace c)).length)

theorem eatLit_length {pat s r : List Nat} (h : eatLit pat s = some r) :
    r.length + pat.length = s.length := by
  unfold eatLit at h
  split_ifs at h with hp
  · cases h
    have hle := (isPrefixOf_eq_iff.mp hp).length_le
    simp [List.length_drop]
    omega

theorem eatOpt_length (pat s : List Nat) : (eatOpt pat s).2.length ≤ s.length := by
  unfold eatOpt
  split_ifs with hp
  · simp [List.length_drop]
  · simp

theorem matchAt_rest_length {s m r : List Nat} (h : matchAt s = some (m, r)) :
    r.length < s.length := by
  unfold matchAt at h
  split at h
  · exact absurd h (by simp)
  case _ s1 heq1 =>
    split at h
    · exact absurd h (by simp)
    case _ s3 heq3 =>
      split at h
      · exact absurd h (by simp)
      case _ s7 heq7 =>
        split at h
        · exact absurd h (by simp)
        · have h1 := eatLit_length heq1
          have h2 := eatOpt_length (codes "s") s1
          have h3 := eatLit_length heq3
          have h4 := eatOpt_length (codes "www.") s3
          have h5 := eatOpt_length (codes "vm.") (eatOpt (codes "www.") s3).2
          have h6 := eatOpt_length (codes "vt.") (eatOpt (codes "vm.") (eatOpt (codes "www.") s3).2).2
          have h7 := eatLit_length heq7
          have h8 : r = s7.drop (s7.takeWhile (fun c => !isPySpace c)).length := by
            cases h; rfl
          have h9 : r.length ≤ s7.length := by
            rw [h8]; simp [List.length_drop]
          simp only [codes, String.data] at h1 h2 h3 h4 h5 h6 h7
          simp at h1 h2 h3 h4 h5 h6 h7
          omega

/-- Embedding of `re.findall(pattern, text)`: scan left to right, and after
each match resume right after it. -/
def findAll : List Nat → List (List Nat)
  | [] => []
  | c :: cs =>
    match h : matchAt (c :: cs) with
    | some (m, r) => m :: findAll r
    | none => findAll cs
termination_by s => s.length
decreasing_by
  · exact matchAt_rest_length h
  · simp

/-- Embedding of `extract_urls_from_text` (video_downloader.py lines 228-246):
collect the regex matches, then keep those passing `validate_tiktok_url`. -/
def extract_urls_from_text (text : List Nat) : List (List Nat) :=
  (findAll text).filter validate_tiktok_url

/- Behaviour of the matcher across a whitespace boundary: no part of a match
can be a whitespace character, so matching in `x ++ w :: b` with `w` a space
is matching in `x`. -/

theorem isPrefixOf_append_space :
    ∀ (p : List Nat), (∀ c ∈ p, isPySpace c = false) →
      ∀ {w : Nat}, isPySpace w = true → ∀ x b : List Nat,
        p.isPrefixOf (x ++ w :: b) = p.isPrefixOf x := by
  intro p
  induction p with
  | nil => intro _ w hw x b; simp [List.isPrefixOf]
  | cons a p ih =>
    intro hp w hw x b
    cases x with
    | nil =>
      have haw : (a == w) = false := by
        have ha := hp a (List.mem_cons_self a p)
        by_cases h : a = w
        · rw [h, hw] at ha; cases ha
        · simp [h]
      simp [List.isPrefixOf, haw]
    | cons y x' =>
      simp only [List.cons_append, List.isPrefixOf, List.append_eq]
      rw [ih (fun c hc => hp c (List.mem_cons_of_mem a hc)) hw x' b]

theorem eatLit_append_space {p : List Nat} (hp : ∀ c ∈ p, isPySpace c = false)
    {w : Nat} (hw : isPySpace w = true) (x b : List Nat) :
    eatLit p (x ++ w :: b) = (eatLit p x).map (fun r => r ++ w :: b) := by
  unfold eatLit
  rw [isPrefixOf_append_space p hp hw x b]
  split_ifs with h
  · have hle := (isPrefixOf_eq_iff.mp h).length_le
    simp [List.drop_append_of_le_length hle]
  · rfl

theorem eatOpt_append_space {p : List Nat} (hp : ∀ c ∈ p, isPySpace c = false)
    {w : Nat} (hw : isPySpace w = true) (x b : List Nat) :
    eatOpt p (x ++ w :: b) = ((eatOpt p x).1, (eatOpt p x).2 ++ w :: b) := by
  unfold eatOpt
  rw [isPrefixOf_append_space p hp hw x b]
  split_ifs with h
  · have hle := (isPrefixOf_eq_iff.mp h).length_le
    simp [List.drop_append_of_le_length hle]
  · rfl

theorem takeWhile_append_space {w : Nat} (hw : isPySpace w = true) :
    ∀ (x b : List Nat),
      (x ++ w :: b).takeWhile (fun c => !isPySpace c) =
        x.takeWhile (fun c => !isPySpace c) := by
  intro x b
  induction x with
  | nil => simp [List.takeWhile_cons, hw]
  | cons y x' ih =>
    simp only [List.cons_append, List.takeWhile_cons]
    cases hy : !isPySpace y <;> simp [ih]

theorem matchAt_append_space {w : Nat} (hw : isPySpace w = true) (x b : List Nat) :
    matchAt (x ++ w :: b) = (matchAt x).map (fun p => (p.1, p.2 ++ w :: b)) := by
  unfold matchAt
  rw [eatLit_append_space (by decide) hw x b]
  cases e1 : eatLit (codes "http") x with
  | none => rfl
  | some s1 =>
    simp only [Option.map_some']
    rw [eatOpt_append_space (by decide) hw s1 b]
    rw [eatLit_append_space (by decide) hw (eatOpt (codes "s") s1).2 b]
    cases e3 : eatLit (codes "://") (eatOpt (codes "s") s1).2 with
    | none => rfl
    | some s3 =>
      simp only [Option.map_some']
      rw [eatOpt_append_space (by decide) hw s3 b]
      rw [eatOpt_append_space (by decide) hw (eatOpt (codes "www.") s3).2 b]
      rw [eatOpt_append_space (by decide) hw
        (eatOpt (codes "vm.") (eatOpt (codes "www.") s3).2).2 b]
      rw [eatLit_append_space (by decide) hw
        (eatOpt (codes "vt.") (eatOpt (codes "vm.") (eatOpt (codes "www.") s3).2).2).2 b]
      cases e7 : eatLit (codes "tiktok.com/")
          (eatOpt (codes "vt.") (eatOpt (codes "vm.") (eatOpt (codes "www.") s3).2).2).2 with
      | none => rfl
      | some s7 =>
        simp only [Option.map_some']
        rw [takeWhile_append_space hw s7 b]
        by_cases hb : (s7.takeWhile (fun c => !isPySpace c)).isEmpty
        · simp [hb]
        · have hle : (s7.takeWhile (fun c => !isPySpace c)).length ≤ s7.length :=
            (List.takeWhile_sublist _).length_le
          simp [hb, List.drop_append_of_le_length hle]

theorem findAll_append_space {w : Nat} (hw : isPySpace w = true) :
    ∀ (x b : List Nat), findAll (x ++ w :: b) = findAll x ++ findAll b := by
  have key : ∀ n (x b : List Nat), x.length ≤ n →
      findAll (x ++ w :: b) = findAll x ++ findAll b := by
    intro n
    induction n with
    | zero =>
      intro x b hx
      have : x = [] := List.length_eq_zero.mp (Nat.le_zero.mp hx)
      subst this
      have hma : matchAt (w :: b) = none := by
        have := matchAt_append_space hw [] b
        simpa using this
      simp only [List.nil_append, findAll]
      rw [hma]
    | succ n ih =>
      intro x b hx
      cases x with
      | nil =>
        have hma : matchAt (w :: b) = none := by
          have := matchAt_append_space hw [] b
          simpa using this
        simp only [List.nil_append, findAll]
        rw [hma]
      | cons c x' =>
        have hma := matchAt_append_space hw (c :: x') b
        cases e : matchAt (c :: x') with
        | none =>
          rw [e] at hma
          simp only [Option.map_none', List.cons_append] at hma
          rw [List.cons_append, findAll, hma, findAll]
          rw [e]
          exact ih x' b (Nat.le_of_succ_le_succ hx)
        | some p =>
          obtain ⟨m, r⟩ := p
          rw [e] at hma
          simp only [Option.map_some', List.cons_append] at hma
          have hr : r.length ≤ n :=
            Nat.le_of_lt_succ (Nat.lt_of_lt_of_le (matchAt_rest_length e) hx)
          rw [List.cons_append, findAll, hma, findAll]
          rw [e]
          simp only [List.cons_append]
          rw [ih r b hr]
  intro x b
  exact key x.length x b le_rfl

/- Every regex match contains the literal `tiktok.com`, so the validation
filter of `extract_urls_from_text` never removes a match. -/

theorem matchAt_shape {s m r : List Nat} (h : matchAt s = some (m, r)) :
    ∃ a b, m = a ++ codes "tiktok.com" ++ b := by
  unfold matchAt at h
  split at h
  · exact absurd h (by simp)
  case _ s1 e1 =>
    split at h
    · exact absurd h (by simp)
    case _ s3 e3 =>
      split at h
      · exact absurd h (by simp)
      case _ s7 e7 =>
        split at h
        · exact absurd h (by simp)
        · simp only [Option.some.injEq, Prod.mk.injEq] at h
          obtain ⟨hm, _⟩ := h
          refine ⟨codes "http" ++ (eatOpt (codes "s") s1).1 ++ codes "://" ++
            (eatOpt (codes "www.") s3).1 ++
            (eatOpt (codes "vm.") (eatOpt (codes "www.") s3).2).1 ++
            (eatOpt (codes "vt.") (eatOpt (codes "vm.") (eatOpt (codes "www.") s3).2).2).1,
            47 :: s7.takeWhile (fun c => !isPySpace c), ?_⟩
          rw [← hm]
          simp [codes, List.append_assoc]

theorem validate_of_matchAt {s m r : List Nat} (h : matchAt s = some (m, r)) :
    validate_tiktok_url m = true := by
  obtain ⟨a, b, hm⟩ := matchAt_shape h
  subst hm
  have hinf : codes "tiktok.com" <:+: lowerStr (a ++ codes "tiktok.com" ++ b) := by
    unfold lowerStr
    rw [List.map_append, List.map_append]
    rw [show (codes "tiktok.com").map lowerChar = codes "tiktok.com" from by decide]
    exact List.infix_append _ _ _
  unfold validate_tiktok_url tiktok_domains
  simp only [List.any_cons, List.any_nil, Bool.or_eq_true]
  exact Or.inl (isSubstring_iff_isInfix.mpr hinf)

theorem validate_of_mem_findAll :
    ∀ (s : List Nat), ∀ m ∈ findAll s, validate_tiktok_url m = true := by
  have key : ∀ n (s : List Nat), s.length ≤ n →
      ∀ m ∈ findAll s, validate_tiktok_url m = true := by
    intro n
    induction n with
    | zero =>
      intro s hs m hm
      have : s = [] := List.length_eq_zero.mp (Nat.le_zero.mp hs)
      subst this
      simp [findAll] at hm
    | succ n ih =>
      intro s hs m hm
      cases s with
      | nil => simp [findAll] at hm
      | cons c cs =>
        cases e : matchAt (c :: cs) with
        | none =>
          rw [findAll, e] at hm
          exact ih cs (Nat.le_of_succ_le_succ hs) m hm
        | some p =>
          obtain ⟨m', r⟩ := p
          rw [findAll, e] at hm
          rcases List.mem_cons.mp hm with hm | hm
          · subst hm; exact validate_of_matchAt e
          · exact ih r (Nat.le_of_lt_succ
              (Nat.lt_of_lt_of_le (matchAt_rest_length e) hs)) m hm
  intro s
  exact key s.length s le_rfl

/-- Shared characterization: the validation filter inside
`extract_urls_from_text` removes nothing. -/
theorem extract_eq_findAll_aux (text : List Nat) :
    extract_urls_from_text text = findAll text := by
  unfold extract_urls_from_text
  exact List.filter_eq_self.mpr (fun m hm => validate_of_mem_findAll text m hm)

/-- C10: every URL matched by the extraction pattern already passes
`validate_tiktok_url`, so the filter inside `extract_urls_from_text` removes
nothing and the output is the raw list of regex matches. -/
theorem extract_urls_no_filtering (text : List Nat) :
    extract_urls_from_text text = findAll text :=
  extract_eq_findAll_aux text

theorem findAll_selfmatch {t : List Nat} (h : matchAt t = some (t, [])) :
    findAll t = [t] := by
  cases t with
  | nil => exact absurd h (by decide)
  | cons c cs =>
    rw [findAll, h]
    simp [findAll]

/-- Free text assembled from whitespace-separated tokens (the interleaving
of platform URLs and other tokens of the claim); 32 is the space char. -/
def joinTokens : List (List Nat) → List Nat
  | [] => []
  | t :: ts => t ++ 32 :: joinTokens ts

/-- C7: on text interleaving platform URL tokens with non-matching tokens,
`extract_urls_from_text` returns exactly the platform URL tokens, in
first-seen order with duplicates preserved (the empty list when there is
none). -/
theorem extract_urls_interleaved (ts : List (List Nat))
    (h : ∀ t ∈ ts, matchAt t = some (t, []) ∨ findAll t = []) :
    extract_urls_from_text (joinTokens ts) =
      ts.filter (fun t => decide (matchAt t = some (t, []))) := by
  rw [extract_eq_findAll_aux]
  induction ts with
  | nil => simp [joinTokens, findAll]
  | cons t ts ih =>
    have hHead := h t (List.mem_cons_self t ts)
    have hTail : ∀ t' ∈ ts, matchAt t' = some (t', []) ∨ findAll t' = [] :=
      fun t' ht' => h t' (List.mem_cons_of_mem t ht')
    show findAll (t ++ 32 :: joinTokens ts) = _
    rw [findAll_append_space (by decide) t (joinTokens ts)]
    rcases hHead with hm | hnone
    · rw [findAll_selfmatch hm, ih hTail]
      simp [List.filter_cons, hm]
    · have hnm : ¬ matchAt t = some (t, []) := by
        intro hm
        rw [findAll_selfmatch hm] at hnone
        cases hnone
      rw [hnone, ih hTail]
      simp [List.filter_cons, hnm]

/-- Concrete instance for `extract_urls_interleaved`: two platform URLs
around one non-URL token. -/
theorem extract_urls_interleaved_witness :
    (∀ t ∈ [codes "https://tiktok.com/@user/video/1", codes "x",
        codes "https://vm.tiktok.com/xyz"],
      matchAt t = some (t, []) ∨ findAll t = []) ∧
    extract_urls_from_text (joinTokens [codes "https://tiktok.com/@user/video/1",
        codes "x", codes "https://vm.tiktok.com/xyz"]) =
      [codes "https://tiktok.com/@user/video/1", codes "x",
        codes "https://vm.tiktok.com/xyz"].filter
        (fun t => decide (matchAt t = some (t, []))) := by
  have hfx : findAll (codes "x") = [] := by
    rw [show codes "x" = [120] from by decide]
    rw [findAll, show matchAt [120] = none from by decide]
    simp [findAll]
  have hyp : ∀ t ∈ [codes "https://tiktok.com/@user/video/1", codes "x",
      codes "https://vm.tiktok.com/xyz"],
      matchAt t = some (t, []) ∨ findAll t = [] := by
    intro t ht
    rcases List.mem_cons.mp ht with rfl | ht
    · exact Or.inl (by decide)
    rcases List.mem_cons.mp ht with rfl | ht
    · exact Or.inr hfx
    rcases List.mem_cons.mp ht with rfl | ht
    · exact Or.inl (by decide)
    · cases ht
  exact ⟨hyp, extract_urls_interleaved _ hyp⟩

/-
Upload-date normalization (`download_video`, video_downloader.py lines
68-83).  `datetime.strptime(raw, "%Y%m%d")` is modelled over code points:
`%Y` consumes exactly four digit characters, `%m` and `%d` use CPython's
alternation (`1[0-2]|0[1-9]|[1-9]` resp. `3[01]|[12]\d|0[1-9]|[1-9]`), the
whole 8-character string must be consumed (so the one-digit alternatives
never contribute), and the `datetime` constructor then requires year ≥ 1
and a day that exists in the month.
-/

structure Ymd where
  year : Nat
  month : Nat
  day : Nat
deriving DecidableEq

def isLeapYear (y : Nat) : Bool := y % 4 = 0 && (y % 100 != 0 || y % 400 = 0)

def daysInMonth (y m : Nat) : Nat :=
  if m = 2 then (if isLeapYear y then 29 else 28)
  else if m = 4 ∨ m = 6 ∨ m = 9 ∨ m = 11 then 30
  else 31

/-- The `%Y` field of `strptime`: four digit characters. -/
def matchYearDigits (a b c d : Nat) : Option Nat :=
  if 48 ≤ a ∧ a ≤ 57 ∧ 48 ≤ b ∧ b ≤ 57 ∧ 48 ≤ c ∧ c ≤ 57 ∧ 48 ≤ d ∧ d ≤ 57 then
    some (1000 * (a - 48) + 100 * (b - 48) + 10 * (c - 48) + (d - 48))
  else none

/-- The `%m` field of `strptime`, restricted to the two-digit alternatives
(the one-digit alternative leaves an unconsumed character and the parse of
the 8-character string fails). -/
def matchMonthDigits (a b : Nat) : Option Nat :=
  if a = 49 ∧ 48 ≤ b ∧ b ≤ 50 then some (10 + (b - 48))
  else if a = 48 ∧ 49 ≤ b ∧ b ≤ 57 then some (b - 48)
  else none

/-- The `%d` field of `strptime`, two-digit alternatives only. -/
def matchDayDigits (a b : Nat) : Option Nat :=
  if a = 51 ∧ 48 ≤ b ∧ b ≤ 49 then some (30 + (b - 48))
  else if (a = 49 ∨ a = 50) ∧ 48 ≤ b ∧ b ≤ 57 then some (10 * (a - 48) + (b - 48))
  else if a = 48 ∧ 49 ≤ b ∧ b ≤ 57 then some (b - 48)
  else none

def strptimeCodes (l : List Nat) : Option Ymd :=
  match l with
  | [y1, y2, y3, y4, m1, m2, d1, d2] =>
    match matchYearDigits y1 y2 y3 y4, matchMonthDigits m1 m2, matchDayDigits d1 d2 with
    | some y, some m, some d =>
      if 1 ≤ y ∧ d ≤ daysInMonth y m then some ⟨y, m, d⟩ else none
    | _, _, _ => none
  | _ => none

/-- Embedding of `datetime.strptime(s, "%Y%m%d")` as used on the 8-character raw date;
`none` models the raised `ValueError`. -/
def strptimeYmd8 (s : String) : Option Ymd := strptimeCodes (codes s)

def zeroPad (w n : Nat) : String :=
  String.mk (List.replicate (w - (toString n).length) '0') ++ toString n

/-- Python `date_obj.strftime("%Y-%m-%d")`. -/
def strftime_Ymd (d : Ymd) : String :=
  zeroPad 4 d.year ++ "-" ++ zeroPad 2 d.month ++ "-" ++ zeroPad 2 d.day

/-- Python `date_obj.isoformat()` for a midnight datetime. -/
def isoformatYmd (d : Ymd) : String := strftime_Ymd d ++ "T00:00:00"

/-- Embedding of the upload-date branch of `download_video`
(video_downloader.py lines 68-83): returns the pair
(upload_date_formatted, upload_date_iso). -/
def normalize_upload_date (raw : String) : String × Option String :=
  if raw ≠ "" ∧ raw ≠ "Unknown" then
    if raw.length = 8 then
      match strptimeYmd8 raw with
      | some d => (strftime_Ymd d, some (isoformatYmd d))
      | none => (raw, none)
    else (raw, none)
  else ("Unknown", none)

theorem matchMonthDigits_eq (a b : Nat) :
    matchMonthDigits a b =
      if 48 ≤ a ∧ a ≤ 57 ∧ 48 ≤ b ∧ b ≤ 57 ∧ 1 ≤ 10 * (a - 48) + (b - 48) ∧
          10 * (a - 48) + (b - 48) ≤ 12
      then some (10 * (a - 48) + (b - 48)) else none := by
  unfold matchMonthDigits
  split_ifs <;> first
    | rfl
    | (simp only [Option.some.injEq]; omega)
    | (exfalso; omega)

theorem matchDayDigits_eq (a b : Nat) :
    matchDayDigits a b =
      if 48 ≤ a ∧ a ≤ 57 ∧ 48 ≤ b ∧ b ≤ 57 ∧ 1 ≤ 10 * (a - 48) + (b - 48) ∧
          10 * (a - 48) + (b - 48) ≤ 31
      then some (10 * (a - 48) + (b - 48)) else none := by
  unfold matchDayDigits
  split_ifs <;> first
    | rfl
    | (simp only [Option.some.injEq]; omega)
    | (exfalso; omega)

theorem strptimeCodes_eq (x1 x2 x3 x4 x5 x6 x7 x8 : Nat) :
    strptimeCodes [x1, x2, x3, x4, x5, x6, x7, x8] =
      if (48 ≤ x1 ∧ x1 ≤ 57) ∧ (48 ≤ x2 ∧ x2 ≤ 57) ∧ (48 ≤ x3 ∧ x3 ≤ 57) ∧
          (48 ≤ x4 ∧ x4 ≤ 57) ∧ (48 ≤ x5 ∧ x5 ≤ 57) ∧ (48 ≤ x6 ∧ x6 ≤ 57) ∧
          (48 ≤ x7 ∧ x7 ≤ 57) ∧ (48 ≤ x8 ∧ x8 ≤ 57) ∧
          1 ≤ 1000 * (x1 - 48) + 100 * (x2 - 48) + 10 * (x3 - 48) + (x4 - 48) ∧
          1 ≤ 10 * (x5 - 48) + (x6 - 48) ∧ 10 * (x5 - 48) + (x6 - 48) ≤ 12 ∧
          1 ≤ 10 * (x7 - 48) + (x8 - 48) ∧
          10 * (x7 - 48) + (x8 - 48) ≤
            daysInMonth (1000 * (x1 - 48) + 100 * (x2 - 48) + 10 * (x3 - 48) + (x4 - 48))
              (10 * (x5 - 48) + (x6 - 48))
      then some ⟨1000 * (x1 - 48) + 100 * (x2 - 48) + 10 * (x3 - 48) + (x4 - 48),
                 10 * (x5 - 48) + (x6 - 48), 10 * (x7 - 48) + (x8 - 48)⟩
      else none := by
  have hd31 : ∀ y m, daysInMonth y m ≤ 31 := by
    intro y m
    unfold daysInMonth
    split_ifs <;> omega
  show (match matchYearDigits x1 x2 x3 x4, matchMonthDigits x5 x6, matchDayDigits x7 x8 with
    | some y, some m, some d =>
      if 1 ≤ y ∧ d ≤ daysInMonth y m then some (Ymd.mk y m d) else none
    | _, _, _ => (none : Option Ymd)) = _
  rw [matchMonthDigits_eq x5 x6, matchDayDigits_eq x7 x8]
  unfold matchYearDigits
  have hdm := hd31 (1000 * (x1 - 48) + 100 * (x2 - 48) + 10 * (x3 - 48) + (x4 - 48))
    (10 * (x5 - 48) + (x6 - 48))
  split_ifs with hY hM hD hR <;> first
    | rfl
    | omega
    | (refine if_pos ?_; omega)
    | (refine if_neg ?_; omega)

/-- Digit-string value, most significant digit first. -/
def digitsVal (l : List Nat) : Nat := l.foldl (fun a c => 10 * a + (c - 48)) 0

def rawYear (raw : String) : Nat := digitsVal ((codes raw).take 4)

def rawMonth (raw : String) : Nat := digitsVal (((codes raw).drop 4).take 2)

def rawDay (raw : String) : Nat := digitsVal ((codes raw).drop 6)

/-- An 8-character all-digit string that encodes a valid calendar date, the
condition of the amended upload-date claim. -/
def validYmdRaw (raw : String) : Prop :=
  (codes raw).length = 8 ∧ (∀ c ∈ codes raw, 48 ≤ c ∧ c ≤ 57) ∧
  1 ≤ rawYear raw ∧ 1 ≤ rawMonth raw ∧ rawMonth raw ≤ 12 ∧
  1 ≤ rawDay raw ∧ rawDay raw ≤ daysInMonth (rawYear raw) (rawMonth raw)

instance (raw : String) : Decidable (validYmdRaw raw) := by
  unfold validYmdRaw
  infer_instance

/-- The upload-date rule in the words of the amended specification: an
8-character numeric string encoding a valid calendar date is reformatted to
`YYYY-MM-DD` with an ISO timestamp; an empty or `"Unknown"` raw value gives
`"Unknown"` and no timestamp; anything else passes through unchanged. -/
def uploadDateSpecFn (raw : String) : String × Option String :=
  if raw = "" ∨ raw = "Unknown" then ("Unknown", none)
  else if validYmdRaw raw then
    (zeroPad 4 (rawYear raw) ++ "-" ++ zeroPad 2 (rawMonth raw) ++ "-" ++
       zeroPad 2 (rawDay raw),
     some (zeroPad 4 (rawYear raw) ++ "-" ++ zeroPad 2 (rawMonth raw) ++ "-" ++
       zeroPad 2 (rawDay raw) ++ "T00:00:00"))
  else (raw, none)

theorem exists_eight {l : List Nat} (h : l.length = 8) :
    ∃ a b c d e f g i, l = [a, b, c, d, e, f, g, i] := by
  rcases l with _ | ⟨a, l⟩; · simp at h
  rcases l with _ | ⟨b, l⟩; · simp at h
  rcases l with _ | ⟨c, l⟩; · simp at h
  rcases l with _ | ⟨d, l⟩; · simp at h
  rcases l with _ | ⟨e, l⟩; · simp at h
  rcases l with _ | ⟨f, l⟩; · simp at h
  rcases l with _ | ⟨g, l⟩; · simp at h
  rcases l with _ | ⟨i, l⟩; · simp at h
  rcases l with _ | ⟨j, l⟩
  · exact ⟨a, b, c, d, e, f, g, i, rfl⟩
  · simp at h

theorem codes_length (s : String) : (codes s).length = s.length := by
  unfold codes
  rw [List.length_map]
  rfl

/-- C5 (amended): the upload-date normalization of `download_video` agrees
with the specification rule `uploadDateSpecFn`. -/
theorem normalize_upload_date_spec (raw : String) :
    normalize_upload_date raw = uploadDateSpecFn raw := by
  by_cases h0 : raw = "" ∨ raw = "Unknown"
  · rcases h0 with rfl | rfl <;> simp [normalize_upload_date, uploadDateSpecFn]
  · push_neg at h0
    unfold normalize_upload_date uploadDateSpecFn
    rw [if_pos h0, if_neg (show ¬(raw = "" ∨ raw = "Unknown") by tauto)]
    by_cases h8 : raw.length = 8
    · rw [if_pos h8]
      have hlen : (codes raw).length = 8 := by rw [codes_length]; exact h8
      obtain ⟨x1, x2, x3, x4, x5, x6, x7, x8, hx⟩ := exists_eight hlen
      have hYv : rawYear raw = 1000 * (x1 - 48) + 100 * (x2 - 48) + 10 * (x3 - 48) + (x4 - 48) := by
        unfold rawYear
        rw [hx]
        simp [digitsVal]
        omega
      have hMv : rawMonth raw = 10 * (x5 - 48) + (x6 - 48) := by
        unfold rawMonth
        rw [hx]
        simp [digitsVal]
      have hDv : rawDay raw = 10 * (x7 - 48) + (x8 - 48) := by
        unfold rawDay
        rw [hx]
        simp [digitsVal]
      have hEquiv : validYmdRaw raw ↔
          ((48 ≤ x1 ∧ x1 ≤ 57) ∧ (48 ≤ x2 ∧ x2 ≤ 57) ∧ (48 ≤ x3 ∧ x3 ≤ 57) ∧
            (48 ≤ x4 ∧ x4 ≤ 57) ∧ (48 ≤ x5 ∧ x5 ≤ 57) ∧ (48 ≤ x6 ∧ x6 ≤ 57) ∧
            (48 ≤ x7 ∧ x7 ≤ 57) ∧ (48 ≤ x8 ∧ x8 ≤ 57) ∧
            1 ≤ 1000 * (x1 - 48) + 100 * (x2 - 48) + 10 * (x3 - 48) + (x4 - 48) ∧
            1 ≤ 10 * (x5 - 48) + (x6 - 48) ∧ 10 * (x5 - 48) + (x6 - 48) ≤ 12 ∧
            1 ≤ 10 * (x7 - 48) + (x8 - 48) ∧
            10 * (x7 - 48) + (x8 - 48) ≤
              daysInMonth (1000 * (x1 - 48) + 100 * (x2 - 48) + 10 * (x3 - 48) + (x4 - 48))
                (10 * (x5 - 48) + (x6 - 48))) := by
        unfold validYmdRaw
        rw [hYv, hMv, hDv, hx]
        simp only [List.length_cons, List.length_nil, List.mem_cons, List.not_mem_nil,
          or_false, forall_eq_or_imp, forall_eq]
        constructor
        · rintro ⟨-, hdig, hrest⟩
          obtain ⟨d1, d2, d3, d4, d5, d6, d7, d8⟩ := hdig
          tauto
        · rintro ⟨d1, d2, d3, d4, d5, d6, d7, d8, hrest⟩
          refine ⟨trivial, ⟨d1, d2, d3, d4, d5, d6, d7, d8⟩, ?_⟩
          tauto
      unfold strptimeYmd8
      rw [hx, strptimeCodes_eq]
      by_cases hC : ((48 ≤ x1 ∧ x1 ≤ 57) ∧ (48 ≤ x2 ∧ x2 ≤ 57) ∧ (48 ≤ x3 ∧ x3 ≤ 57) ∧
          (48 ≤ x4 ∧ x4 ≤ 57) ∧ (48 ≤ x5 ∧ x5 ≤ 57) ∧ (48 ≤ x6 ∧ x6 ≤ 57) ∧
          (48 ≤ x7 ∧ x7 ≤ 57) ∧ (48 ≤ x8 ∧ x8 ≤ 57) ∧
          1 ≤ 1000 * (x1 - 48) + 100 * (x2 - 48) + 10 * (x3 - 48) + (x4 - 48) ∧
          1 ≤ 10 * (x5 - 48) + (x6 - 48) ∧ 10 * (x5 - 48) + (x6 - 48) ≤ 12 ∧
          1 ≤ 10 * (x7 - 48) + (x8 - 48) ∧
          10 * (x7 - 48) + (x8 - 48) ≤
            daysInMonth (1000 * (x1 - 48) + 100 * (x2 - 48) + 10 * (x3 - 48) + (x4 - 48))
              (10 * (x5 - 48) + (x6 - 48)))
      · rw [if_pos hC, if_pos (hEquiv.mpr hC)]
        rw [hYv, hMv, hDv]
        simp [strftime_Ymd, isoformatYmd]
      · rw [if_neg hC, if_neg (fun hv => hC (hEquiv.mp hv))]
    · rw [if_neg h8]
      have hnv : ¬ validYmdRaw raw := by
        intro hv
        exact h8 (by rw [← codes_length]; exact hv.1)
      rw [if_neg hnv]

/-- C5 counterexample: `"20230230"` is an 8-character numeric string, yet
`download_video` passes it through unchanged and emits no ISO timestamp,
because `strptime` rejects February 30. -/
theorem normalize_upload_date_counterexample :
    ("20230230".length = 8 ∧ ∀ c ∈ codes "20230230", 48 ≤ c ∧ c ≤ 57) ∧
    normalize_upload_date "20230230" = ("20230230", none) := by
  constructor
  · exact ⟨by decide, by decide⟩
  · decide

/-
Download stage (`download_video`, video_downloader.py lines 40-139).  The
`ydl.extract_info` call of attempt `i` is modelled by an oracle mapping the
attempt index to `none` (success, metadata abstracted into `VideoInfo`) or
`some msg` (the raised exception's message).  The loop state is passed
explicitly; `callsMade` records how many attempts were actually executed.
-/

inductive ErrCat where
  | blocked
  | unavailable
  | privateVideo
  | network
  | rateLimited
  | unknown
deriving DecidableEq

/-- The error classification chain of video_downloader.py lines 110-122,
applied to `str(e).lower()`. -/
def classify_error (e : List Nat) : ErrCat :=
  if isSubstring (codes "unable to extract webpage video data") (lowerStr e) then .blocked
  else if isSubstring (codes "video unavailable") (lowerStr e) then .unavailable
  else if isSubstring (codes "private video") (lowerStr e) then .privateVideo
  else if isSubstring (codes "network") (lowerStr e) ||
      isSubstring (codes "connection") (lowerStr e) then .network
  else if isSubstring (codes "rate limit") (lowerStr e) ||
      isSubstring (codes "too many requests") (lowerStr e) then .rateLimited
  else .unknown

/-- The permanent-error test of video_downloader.py line 127:
`any(keyword in error_msg for keyword in ['private video', 'video unavailable', 'deleted'])`. -/
def isPermanentError (e : List Nat) : Bool :=
  isSubstring (codes "private video") (lowerStr e) ||
  isSubstring (codes "video unavailable") (lowerStr e) ||
  isSubstring (codes "deleted") (lowerStr e)

/-- Metadata returned by a successful `extract_info` call; fields not used
by any claim are omitted. -/
structure VideoInfo where
  title : Option String
  upload_date : Option String
  duration : Option ℚ
  filename : List Nat
deriving DecidableEq

/-- The dictionary returned by `download_video`; `none` models an absent
dictionary key. -/
structure DownloadRecord where
  url : List Nat
  success : Bool
  attempts : Nat
  error : Option (List Nat)
  error_type : Option ErrCat
  title : Option String
  duration : Option ℚ
  filename : Option (List Nat)
  upload_date : Option String
  upload_date_formatted : Option String
  upload_date_iso : Option String
deriving DecidableEq

/-- The success dictionary of video_downloader.py lines 86-104. -/
def successRecord (url : List Nat) (info : VideoInfo) (attempt : Nat) : DownloadRecord :=
  { url := url
    success := true
    attempts := attempt + 1
    error := none
    error_type := none
    title := some (info.title.getD "Unknown")
    duration := some (info.duration.getD 0)
    filename := some info.filename
    upload_date := some (info.upload_date.getD "")
    upload_date_formatted := some (normalize_upload_date (info.upload_date.getD "")).1
    upload_date_iso := (normalize_upload_date (info.upload_date.getD "")).2 }

/-- The failure dictionary of video_downloader.py lines 133-139: note that
`attempts` is always the configured `max_retries`. -/
def failureRecord (url : List Nat) (lastErr : Option (List Nat)) (maxRetries : Nat) :
    DownloadRecord :=
  { url := url
    success := false
    attempts := maxRetries
    error := lastErr
    error_type := lastErr.map classify_error
    title := none
    duration := none
    filename := none
    upload_date := none
    upload_date_formatted := none
    upload_date_iso := none }

/-- Result of running `download_video`: the returned dictionary together
with the number of `extract_info` calls the loop actually made. -/
structure DownloadOutcome where
  record : DownloadRecord
  callsMade : Nat
deriving DecidableEq

/-- The retry loop of video_downloader.py lines 53-129, unrolled over the
remaining `fuel = max_retries - attempt` iterations.  The oracle returns
`.ok info` when `extract_info` succeeds and `.error msg` when it raises. -/
def downloadLoop (url : List Nat) (oracle : Nat → Except (List Nat) VideoInfo)
    (maxRetries : Nat) : Nat → Nat → Option (List Nat) → DownloadOutcome
  | 0, attempt, lastErr => ⟨failureRecord url lastErr maxRetries, attempt⟩
  | fuel + 1, attempt, lastErr =>
    match oracle attempt with
    | .ok info => ⟨successRecord url info attempt, attempt + 1⟩
    | .error e =>
      if isPermanentError e then ⟨failureRecord url (some e) maxRetries, attempt + 1⟩
      else downloadLoop url oracle maxRetries fuel (attempt + 1) (some e)

/-- Embedding of `download_video(url, max_retries)` against an attempt
oracle. -/
def download_video (url : List Nat) (oracle : Nat → Except (List Nat) VideoInfo)
    (maxRetries : Nat) : DownloadOutcome :=
  downloadLoop url oracle maxRetries maxRetries 0 none

theorem downloadLoop_permanent (url : List Nat) (oracle : Nat → Except (List Nat) VideoInfo)
    (maxRetries i : Nat) (e : List Nat) (he : oracle i = .error e)
    (hperm : isPermanentError e = true) (hi : i < maxRetries) :
    ∀ fuel attempt lastErr, attempt + fuel = maxRetries → attempt ≤ i →
      (∀ j, attempt ≤ j → j < i →
        ∃ e', oracle j = .error e' ∧ isPermanentError e' = false) →
      (downloadLoop url oracle maxRetries fuel attempt lastErr).callsMade = i + 1 := by
  intro fuel
  induction fuel with
  | zero =>
    intro attempt lastErr hsum hle _
    exact absurd hi (by omega)
  | succ fuel ih =>
    intro attempt lastErr hsum hle hprev
    by_cases hia : attempt = i
    · subst hia
      simp only [downloadLoop]
      rw [he]
      simp [hperm]
    · have hlt : attempt < i := lt_of_le_of_ne hle hia
      obtain ⟨e', he', hne⟩ := hprev attempt le_rfl hlt
      simp only [downloadLoop]
      rw [he']
      simp only [hne, Bool.false_eq_true, if_false]
      exact ih (attempt + 1) (some e') (by omega) (by omega)
        (fun j hj1 hj2 => hprev j (by omega) hj2)

/-- C2: a permanent error (message containing "private video",
"video unavailable" or "deleted") stops the retry loop immediately: if the
first `i` attempts fail with non-permanent errors and attempt `i` fails
with a permanent one, exactly `i + 1` attempts are made, regardless of any
remaining retry budget.  With `i = 0`: a "private video" error on the first
attempt gives exactly one attempt for every `maxRetries ≥ 1`. -/
theorem download_video_permanent_stops (url : List Nat)
    (oracle : Nat → Except (List Nat) VideoInfo) (maxRetries i : Nat)
    (hi : i < maxRetries)
    (hprev : ∀ j, j < i → ∃ e', oracle j = .error e' ∧ isPermanentError e' = false)
    (e : List Nat) (he : oracle i = .error e) (hperm : isPermanentError e = true) :
    (download_video url oracle maxRetries).callsMade = i + 1 :=
  downloadLoop_permanent url oracle maxRetries i e he hperm hi maxRetries 0 none
    (by omega) (Nat.zero_le i) (fun j _ hj => hprev j hj)

/-- Concrete instance for `download_video_permanent_stops`: a "Private
video" error on the first attempt with a retry budget of 5. -/
theorem download_video_permanent_stops_witness :
    (0 < 5 ∧ isPermanentError (codes "Private video") = true) ∧
    (download_video (codes "u")
      (fun _ => Except.error (codes "Private video")) 5).callsMade = 0 + 1 :=
  ⟨⟨by omega, by decide⟩,
    download_video_permanent_stops (codes "u")
      (fun _ => Except.error (codes "Private video")) 5 0 (by omega)
      (fun j hj => absurd hj (Nat.not_lt_zero j))
      (codes "Private video") rfl (by decide)⟩

/-- C1 counterexample: with `max_retries = 3` and a permanent "private
video" error on the first attempt, the loop makes exactly 1 attempt but the
returned record reports `attempts = 3` — the configured maximum, not the
count reached at the break. -/
theorem download_attempts_counterexample :
    (download_video (codes "u")
        (fun _ => Except.error (codes "private video")) 3).callsMade = 1 ∧
    (download_video (codes "u")
        (fun _ => Except.error (codes "private video")) 3).record.attempts = 3 ∧
    ¬ ((download_video (codes "u")
        (fun _ => Except.error (codes "private video")) 3).record.attempts =
      (download_video (codes "u")
        (fun _ => Except.error (codes "private video")) 3).callsMade) := by
  refine ⟨by decide, by decide, ?_⟩
  decide

theorem downloadLoop_allfail (url : List Nat) (oracle : Nat → Except (List Nat) VideoInfo)
    (maxRetries : Nat) (hmr : 1 ≤ maxRetries)
    (hf : ∀ i, i < maxRetries → ∃ e, oracle i = .error e) :
    ∀ fuel attempt lastErr, attempt + fuel = maxRetries →
      ((attempt = 0 ∧ lastErr = none) ∨
        (1 ≤ attempt ∧ ∃ e0, lastErr = some e0 ∧ oracle (attempt - 1) = .error e0)) →
      (downloadLoop url oracle maxRetries fuel attempt lastErr).record.success = false ∧
      (downloadLoop url oracle maxRetries fuel attempt lastErr).record.attempts = maxRetries ∧
      max 1 attempt ≤ (downloadLoop url oracle maxRetries fuel attempt lastErr).callsMade ∧
      (downloadLoop url oracle maxRetries fuel attempt lastErr).callsMade ≤ maxRetries ∧
      ∃ e, oracle ((downloadLoop url oracle maxRetries fuel attempt lastErr).callsMade - 1) =
            .error e ∧
        (downloadLoop url oracle maxRetries fuel attempt lastErr).record.error = some e ∧
        (downloadLoop url oracle maxRetries fuel attempt lastErr).record.error_type =
          some (classify_error e) := by
  intro fuel
  induction fuel with
  | zero =>
    intro attempt lastErr hsum hinv
    rcases hinv with ⟨h0, -⟩ | ⟨h1, e0, hl, ho⟩
    · omega
    · subst hl
      refine ⟨rfl, rfl, ?_, ?_, e0, ?_, rfl, rfl⟩
      · show max 1 attempt ≤ attempt
        omega
      · show attempt ≤ maxRetries
        omega
      · show oracle (attempt - 1) = Except.error e0
        exact ho
  | succ fuel ih =>
    intro attempt lastErr hsum hinv
    have hlt : attempt < maxRetries := by omega
    obtain ⟨e, he⟩ := hf attempt hlt
    simp only [downloadLoop]
    rw [he]
    dsimp only
    by_cases hperm : isPermanentError e = true
    · rw [if_pos hperm]
      refine ⟨rfl, rfl, ?_, ?_, e, ?_, rfl, rfl⟩
      · show max 1 attempt ≤ attempt + 1
        omega
      · show attempt + 1 ≤ maxRetries
        omega
      · show oracle (attempt + 1 - 1) = Except.error e
        simpa using he
    · rw [if_neg hperm]
      have := ih (attempt + 1) (some e) (by omega)
        (Or.inr ⟨by omega, e, rfl, by simpa using he⟩)
      refine ⟨this.1, this.2.1, ?_, this.2.2.2.1, this.2.2.2.2⟩
      have h3 := this.2.2.1
      omega

/-- C1 (amended): when every attempt fails, the returned record has
`success = false`, carries the last error's message and its category, and
reports `attempts = maxRetries` — the configured maximum — even when a
permanent error terminated the loop after fewer actual attempts. -/
theorem download_video_allfail (url : List Nat)
    (oracle : Nat → Except (List Nat) VideoInfo) (maxRetries : Nat)
    (hmr : 1 ≤ maxRetries)
    (hf : ∀ i, i < maxRetries → ∃ e, oracle i = .error e) :
    (download_video url oracle maxRetries).record.success = false ∧
    (download_video url oracle maxRetries).record.attempts = maxRetries ∧
    1 ≤ (download_video url oracle maxRetries).callsMade ∧
    (download_video url oracle maxRetries).callsMade ≤ maxRetries ∧
    ∃ e, oracle ((download_video url oracle maxRetries).callsMade - 1) = .error e ∧
      (download_video url oracle maxRetries).record.error = some e ∧
      (download_video url oracle maxRetries).record.error_type =
        some (classify_error e) := by
  have := downloadLoop_allfail url oracle maxRetries hmr hf maxRetries 0 none
    (by omega) (Or.inl ⟨rfl, rfl⟩)
  unfold download_video
  refine ⟨this.1, this.2.1, ?_, this.2.2.2.1, this.2.2.2.2⟩
  have h3 := this.2.2.1
  omega

/-- Concrete instance for `download_video_allfail`: two attempts, both
failing with a transient "network down" error. -/
theorem download_video_allfail_witness :
    (1 ≤ 2 ∧ ∀ i, i < 2 →
      ∃ e, (fun _ => Except.error (α := VideoInfo) (codes "network down")) i =
        Except.error e) ∧
    ((download_video (codes "u")
        (fun _ => Except.error (codes "network down")) 2).record.success = false ∧
      (download_video (codes "u")
          (fun _ => Except.error (codes "network down")) 2).record.attempts = 2 ∧
      1 ≤ (download_video (codes "u")
          (fun _ => Except.error (codes "network down")) 2).callsMade ∧
      (download_video (codes "u")
          (fun _ => Except.error (codes "network down")) 2).callsMade ≤ 2 ∧
      ∃ e, (fun _ => Except.error (α := VideoInfo) (codes "network down"))
            ((download_video (codes "u")
              (fun _ => Except.error (codes "network down")) 2).callsMade - 1) =
            Except.error e ∧
        (download_video (codes "u")
            (fun _ => Except.error (codes "network down")) 2).record.error = some e ∧
        (download_video (codes "u")
            (fun _ => Except.error (codes "network down")) 2).record.error_type =
          some (classify_error e)) :=
  ⟨⟨by omega, fun i _ => ⟨codes "network down", rfl⟩⟩,
    download_video_allfail (codes "u")
      (fun _ => Except.error (codes "network down")) 2 (by omega)
      (fun i _ => ⟨codes "network down", rfl⟩)⟩

/-
Transcription records (`transcriber.py`) and the orchestrator
(`process_videos`, app.py lines 224-334).  The transcription stage is the
orchestrator's collaborator: `transcribe_video` is modelled as a function of
the download record's `filename` field.
-/

structure Segment where
  start : ℚ
  stop : ℚ
  text : String
deriving DecidableEq

structure TranscriptionRecord where
  text : String
  language : String
  segments : List Segment
  duration : ℚ
deriving DecidableEq

/-- One entry of `st.session_state.transcription_results`: the merged
dictionary of app.py lines 288-318.  `transcriptionAttempted` records
whether `transcriber.transcribe_video` was invoked for this record. -/
structure ResultRecord where
  dl : DownloadRecord
  transcriptionAttempted : Bool
  transcription_success : Bool
  transcription_error : Option String
  transcription : Option TranscriptionRecord
deriving DecidableEq

/-- The fixed placeholder of app.py line 293. -/
def downloadFailedPlaceholder : String := "Download failed - transcription not attempted"

/-- The synthesized record for a failed download (app.py lines 289-294). -/
def failedDownloadResult (r : DownloadRecord) : ResultRecord :=
  { dl := r
    transcriptionAttempted := false
    transcription_success := false
    transcription_error := some downloadFailedPlaceholder
    transcription := none }

/-- The record built for a successful download (app.py lines 298-318). -/
def attemptTranscription (trFn : Option (List Nat) → Option TranscriptionRecord)
    (r : DownloadRecord) : ResultRecord :=
  match trFn r.filename with
  | some t =>
    { dl := r
      transcriptionAttempted := true
      transcription_success := true
      transcription_error := none
      transcription := some t }
  | none =>
    { dl := r
      transcriptionAttempted := true
      transcription_success := false
      transcription_error := some "Failed to transcribe"
      transcription := none }

/-- Embedding of the result-building core of `process_videos` (app.py lines
236-321): download every URL in order, then emit the failed downloads first
and the attempted transcriptions second. -/
def process_videos (dlFn : List Nat → DownloadRecord)
    (trFn : Option (List Nat) → Option TranscriptionRecord)
    (urls : List (List Nat)) : List ResultRecord :=
  ((urls.map dlFn).filter (fun r => !r.success)).map failedDownloadResult ++
    ((urls.map dlFn).filter (fun r => r.success)).map (attemptTranscription trFn)

theorem mem_process_videos {dlFn : List Nat → DownloadRecord}
    {trFn : Option (List Nat) → Option TranscriptionRecord}
    {urls : List (List Nat)} {r : ResultRecord}
    (hr : r ∈ process_videos dlFn trFn urls) :
    (∃ x, x.success = false ∧ r = failedDownloadResult x) ∨
    (∃ x, x.success = true ∧ r = attemptTranscription trFn x) := by
  unfold process_videos at hr
  rcases List.mem_append.mp hr with h | h
  · obtain ⟨x, hx, rfl⟩ := List.mem_map.mp h
    exact Or.inl ⟨x, by simpa using (List.mem_filter.mp hx).2, rfl⟩
  · obtain ⟨x, hx, rfl⟩ := List.mem_map.mp h
    exact Or.inr ⟨x, (List.mem_filter.mp hx).2, rfl⟩

/-- C3: in the orchestrator's output, transcription is attempted exactly
when the download succeeded, and every record of a failed download has
`transcription_success = false` with the fixed placeholder error and no
transcription fields. -/
theorem transcription_iff_download_success (dlFn : List Nat → DownloadRecord)
    (trFn : Option (List Nat) → Option TranscriptionRecord)
    (urls : List (List Nat)) (r : ResultRecord)
    (hr : r ∈ process_videos dlFn trFn urls) :
    r.transcriptionAttempted = r.dl.success ∧
    (r.dl.success = false → r.transcription_success = false ∧
      r.transcription_error = some downloadFailedPlaceholder ∧
      r.transcription = none) := by
  rcases mem_process_videos hr with ⟨x, hxs, rfl⟩ | ⟨x, hxs, rfl⟩
  · exact ⟨by simp [failedDownloadResult, hxs], fun _ => ⟨rfl, rfl, rfl⟩⟩
  · constructor
    · unfold attemptTranscription
      cases trFn x.filename <;> simp [hxs]
    · intro hfalse
      exfalso
      have hdl : (attemptTranscription trFn x).dl = x := by
        unfold attemptTranscription
        cases trFn x.filename <;> rfl
      rw [hdl, hxs] at hfalse
      cases hfalse

/-- Concrete instance for `transcription_iff_download_success`: a batch of
one URL whose download fails. -/
theorem transcription_iff_download_success_witness :
    (failedDownloadResult (failureRecord (codes "u1") (some (codes "boom")) 3) ∈
      process_videos (fun u => failureRecord u (some (codes "boom")) 3)
        (fun _ => none) [codes "u1"]) ∧
    ((failedDownloadResult (failureRecord (codes "u1") (some (codes "boom")) 3)).transcriptionAttempted =
        (failedDownloadResult (failureRecord (codes "u1") (some (codes "boom")) 3)).dl.success ∧
      ((failedDownloadResult (failureRecord (codes "u1") (some (codes "boom")) 3)).dl.success = false →
        (failedDownloadResult (failureRecord (codes "u1") (some (codes "boom")) 3)).transcription_success = false ∧
        (failedDownloadResult (failureRecord (codes "u1") (some (codes "boom")) 3)).transcription_error =
          some downloadFailedPlaceholder ∧
        (failedDownloadResult (failureRecord (codes "u1") (some (codes "boom")) 3)).transcription = none)) :=
  ⟨by decide,
    transcription_iff_download_success (fun u => failureRecord u (some (codes "boom")) 3)
      (fun _ => none) [codes "u1"]
      (failedDownloadResult (failureRecord (codes "u1") (some (codes "boom")) 3)) (by decide)⟩

/-- C4: the orchestrator emits exactly one result per input URL, ordered as
all failed downloads first (in their original relative order) followed by
all attempted transcriptions (in their original relative order). -/
theorem result_record_order (dlFn : List Nat → DownloadRecord)
    (trFn : Option (List Nat) → Option TranscriptionRecord)
    (urls : List (List Nat)) :
    (process_videos dlFn trFn urls).length = urls.length ∧
    (process_videos dlFn trFn urls).map (fun r => r.dl) =
      (urls.map dlFn).filter (fun r => !r.success) ++
      (urls.map dlFn).filter (fun r => r.success) := by
  constructor
  · unfold process_videos
    rw [List.length_append, List.length_map, List.length_map]
    have h := List.length_eq_length_filter_add (l := urls.map dlFn)
      (fun r => !r.success)
    simp only [Bool.not_not] at h
    rw [List.length_map] at h
    omega
  · unfold process_videos
    rw [List.map_append, List.map_map, List.map_map]
    congr 1
    · rw [show ((fun r : ResultRecord => r.dl) ∘ failedDownloadResult) = id from
        funext fun r => rfl]
      exact List.map_id _
    · rw [show ((fun r : ResultRecord => r.dl) ∘ attemptTranscription trFn) = id from
        funext fun r => by
          show (attemptTranscription trFn r).dl = r
          unfold attemptTranscription
          cases trFn r.filename <;> rfl]
      exact List.map_id _

/-
Timestamp formatting (`format_timestamp`, transcriber.py lines 211-223)
over exact rationals: `minutes = int(seconds // 60)`,
`seconds = int(seconds % 60)`, rendered as `f"{minutes:02d}:{seconds:02d}"`.
-/

/-- Python `f"{n:02d}"`. -/
def intPad2 (n : ℤ) : String :=
  if 0 ≤ n ∧ n < 10 then "0" ++ toString n else toString n

def format_timestamp (s : ℚ) : String :=
  intPad2 ⌊s / 60⌋ ++ ":" ++ intPad2 ⌊s - 60 * ⌊s / 60⌋⌋

/-- C9: for every non-negative time the formatter produces
`MM:SS` with `minutes = ⌊s / 60⌋` unbounded, a seconds field in `[0, 60)`
and no hours component; in particular `75 → "01:15"`, `0 → "00:00"`,
`3661 → "61:01"`. -/
theorem format_timestamp_spec (s : ℚ) :
    (0 ≤ s →
      format_timestamp s =
        intPad2 ⌊s / 60⌋ ++ ":" ++ intPad2 (⌊s⌋ - 60 * ⌊s / 60⌋) ∧
      0 ≤ ⌊s⌋ - 60 * ⌊s / 60⌋ ∧ ⌊s⌋ - 60 * ⌊s / 60⌋ < 60 ∧ 0 ≤ ⌊s / 60⌋) ∧
    format_timestamp 75 = "01:15" ∧ format_timestamp 0 = "00:00" ∧
    format_timestamp 3661 = "61:01" := by
  constructor
  · intro hs
    have hfloor : ⌊s - 60 * ⌊s / 60⌋⌋ = ⌊s⌋ - 60 * ⌊s / 60⌋ := by
      have he : s - 60 * ⌊s / 60⌋ = s - ((60 * ⌊s / 60⌋ : ℤ) : ℚ) := by
        push_cast
        ring
      rw [he, Int.floor_sub_int]
    have h1 : ((⌊s / 60⌋ : ℤ) : ℚ) ≤ s / 60 := Int.floor_le _
    have h2 : s / 60 < (⌊s / 60⌋ : ℤ) + 1 := Int.lt_floor_add_one _
    have h3 : ((60 * ⌊s / 60⌋ : ℤ) : ℚ) ≤ s := by
      push_cast
      rw [show ((60 : ℚ) * ⌊s / 60⌋ ≤ s) = ((⌊s / 60⌋ : ℚ) * 60 ≤ s) from by ring_nf]
      exact (le_div_iff₀ (by norm_num)).mp h1
    have h4 : s < ((60 * ⌊s / 60⌋ + 60 : ℤ) : ℚ) := by
      push_cast
      have := (div_lt_iff₀ (show (0:ℚ) < 60 by norm_num)).mp h2
      linarith
    have h5 : (60 * ⌊s / 60⌋ : ℤ) ≤ ⌊s⌋ := Int.le_floor.mpr h3
    have h6 : ⌊s⌋ < 60 * ⌊s / 60⌋ + 60 := Int.floor_lt.mpr h4
    have h7 : 0 ≤ ⌊s / 60⌋ := Int.floor_nonneg.mpr (by positivity)
    refine ⟨?_, by omega, by omega, h7⟩
    unfold format_timestamp
    rw [hfloor]
  · refine ⟨?_, ?_, ?_⟩
    · unfold format_timestamp
      rw [show ⌊(75 : ℚ) / 60⌋ = 1 from by norm_num]
      rw [show (75 : ℚ) - 60 * ((1 : ℤ) : ℚ) = 15 from by norm_num]
      rw [show ⌊(15 : ℚ)⌋ = 15 from by norm_num]
      decide
    · unfold format_timestamp
      rw [show ⌊(0 : ℚ) / 60⌋ = 0 from by norm_num]
      rw [show (0 : ℚ) - 60 * ((0 : ℤ) : ℚ) = 0 from by norm_num]
      rw [show ⌊(0 : ℚ)⌋ = 0 from by norm_num]
      decide
    · unfold format_timestamp
      rw [show ⌊(3661 : ℚ) / 60⌋ = 61 from by norm_num]
      rw [show (3661 : ℚ) - 60 * ((61 : ℤ) : ℚ) = 1 from by norm_num]
      rw [show ⌊(1 : ℚ)⌋ = 1 from by norm_num]
      decide

/-- Concrete instance for `format_timestamp_spec` at 75 seconds. -/
theorem format_timestamp_spec_witness :
    (0 ≤ (75 : ℚ)) ∧
    (format_timestamp 75 =
        intPad2 ⌊(75 : ℚ) / 60⌋ ++ ":" ++ intPad2 (⌊(75 : ℚ)⌋ - 60 * ⌊(75 : ℚ) / 60⌋) ∧
      0 ≤ ⌊(75 : ℚ)⌋ - 60 * ⌊(75 : ℚ) / 60⌋ ∧ ⌊(75 : ℚ)⌋ - 60 * ⌊(75 : ℚ) / 60⌋ < 60 ∧
      0 ≤ ⌊(75 : ℚ) / 60⌋) :=
  ⟨by norm_num, (format_timestamp_spec 75).1 (by norm_num)⟩

/-
SRT export (`export_results` app.py line 453 and `create_srt_zip_export`
app.py lines 500-523).  An archive is modelled as the list of its
(filename, content) entries.  `isalnum` and whitespace stripping are
modelled over the ASCII range used by the SRT machinery.
-/

/-- Segment list of a merged result dictionary: `result.get('segments')`,
empty when the key is absent (failed download or failed transcription). -/
def resultSegments (r : ResultRecord) : List Segment :=
  match r.transcription with
  | some t => t.segments
  | none => []

/-- The filter of app.py line 453:
`r.get('transcription_success', False) and r.get('segments')` (a non-empty
segment list is truthy). -/
def srtEligible (r : ResultRecord) : Bool :=
  r.transcription_success && !(resultSegments r).isEmpty

/-- One SRT block (app.py lines 509-514). -/
def srtBlock (idx : Nat) (seg : Segment) : String :=
  toString idx ++ "\n" ++ format_timestamp seg.start ++ " --> " ++
    format_timestamp seg.stop ++ "\n" ++ seg.text.trim ++ "\n\n"

def srtContentGo : Nat → List Segment → String
  | _, [] => ""
  | i, seg :: rest => srtBlock i seg ++ srtContentGo (i + 1) rest

/-- The accumulated `srt_content` for one result (`enumerate(..., 1)`). -/
def srtContent (segs : List Segment) : String := srtContentGo 1 segs

/-- Characters kept by the filename sanitizer of app.py line 519. -/
def sanitizeChar (c : Char) : Bool :=
  c.isAlphanum || c = ' ' || c = '-' || c = '_' || c = '.'

/-- Python `str.rstrip()` on the character list. -/
def rstripChars (l : List Char) : List Char :=
  (l.reverse.dropWhile Char.isWhitespace).reverse

/-- Python `result.get('title', 'unknown')` (app.py line 517). -/
def resultTitle (r : ResultRecord) : String := r.dl.title.getD "unknown"

/-- The sanitized entry name of app.py lines 517-519. -/
def srtFilename (i : Nat) (title : String) : String :=
  String.mk (rstripChars
    (("video_" ++ toString (i + 1) ++ "_" ++ title.take 50 ++ ".srt").data.filter
      sanitizeChar))

/-- The loop of `create_srt_zip_export` (app.py lines 505-520), with the
running `enumerate` index: one archive entry per result whose segment list
is non-empty, silently skipping the rest. -/
def srtZipGo : Nat → List ResultRecord → List (String × String)
  | _, [] => []
  | i, r :: rs =>
    if (resultSegments r).isEmpty then srtZipGo (i + 1) rs
    else (srtFilename i (resultTitle r), srtContent (resultSegments r)) ::
      srtZipGo (i + 1) rs

/-- Embedding of `create_srt_zip_export(results)` as the entry list of the
produced archive. -/
def create_srt_zip_export (results : List ResultRecord) : List (String × String) :=
  srtZipGo 0 results

/-- The SRT export path of `export_results` (app.py lines 453-457). -/
def export_results_srt (results : List ResultRecord) : List (String × String) :=
  create_srt_zip_export (results.filter srtEligible)

theorem srtZipGo_length (rs : List ResultRecord)
    (h : ∀ r ∈ rs, (resultSegments r).isEmpty = false) :
    ∀ i, (srtZipGo i rs).length = rs.length := by
  induction rs with
  | nil => intro i; rfl
  | cons r rs ih =>
    intro i
    have hr := h r (List.mem_cons_self r rs)
    simp only [srtZipGo, hr, Bool.false_eq_true, if_false, List.length_cons]
    rw [ih (fun x hx => h x (List.mem_cons_of_mem r hx)) (i + 1)]

/-- On orchestrator output, the code's eligibility test (transcription
succeeded and segments non-empty) coincides with the claim's predicate
(transcription attempted and segments non-empty). -/
theorem srtEligible_eq_attempted (dlFn : List Nat → DownloadRecord)
    (trFn : Option (List Nat) → Option TranscriptionRecord)
    (urls : List (List Nat)) :
    ∀ r ∈ process_videos dlFn trFn urls,
      srtEligible r = (r.transcriptionAttempted && !(resultSegments r).isEmpty) := by
  intro r hr
  rcases mem_process_videos hr with ⟨x, hxs, rfl⟩ | ⟨x, hxs, rfl⟩
  · rfl
  · unfold attemptTranscription
    cases trFn x.filename <;> rfl

/-- C8: the subtitle archive over the orchestrator's results contains
exactly one entry per result with transcription attempted and a non-empty
segment list; results with an empty segment list are skipped. -/
theorem srt_zip_one_entry_per_result (dlFn : List Nat → DownloadRecord)
    (trFn : Option (List Nat) → Option TranscriptionRecord)
    (urls : List (List Nat)) :
    (export_results_srt (process_videos dlFn trFn urls)).length =
      ((process_videos dlFn trFn urls).filter
        (fun r => r.transcriptionAttempted && !(resultSegments r).isEmpty)).length := by
  unfold export_results_srt create_srt_zip_export
  rw [List.filter_congr (srtEligible_eq_attempted dlFn trFn urls)]
  apply srtZipGo_length
  intro r hr
  have := (List.mem_filter.mp hr).2
  simp only [Bool.and_eq_true, Bool.not_eq_true'] at this
  exact this.2

end TikTok
